import Mathlib

/-!
Verification of `jsonval.py`: a positional lexer for a simplified JSON
dialect (`lex`) and a bracket-matching validator (`validate`).

The lexer is embedded from the source faithfully:
`lex` scans the input left to right; at each cursor position it tries an
ordered rule table against the remaining suffix and, on the first rule
matching a non-empty prefix, emits a token (unless the rule is the
discarded-whitespace rule) and advances the cursor by the length of the
whole match.  If no rule matches, it fails, reporting the current
position (Python: `ValueError: Unrecognized token starting at position p`).

A Python generator yields tokens until it raises, so a run of `lex` is
modelled as a pair: the list of tokens emitted before completion or
failure, together with `none` on success or `some p` when lexing failed
at position `p`.
-/

set_option autoImplicit false

namespace JsonVal

/-- The token kinds of the rule table in `lex` (src/jsonval.py). -/
inductive TokName where
  | string
  | boolean
  | assignment
  | open_square
  | open_curly
  | close_square
  | close_curly
  | separator
  | number
  deriving DecidableEq, Repr

/-- The Python string of a `TokName`, as it appears in the rule table. -/
def TokName.str : TokName → String
  | .string => "string"
  | .boolean => "boolean"
  | .assignment => "assignment"
  | .open_square => "open_square"
  | .open_curly => "open_curly"
  | .close_square => "close_square"
  | .close_curly => "close_curly"
  | .separator => "separator"
  | .number => "number"

/-- The `Token` class of src/jsonval.py: a kind, the captured text
(`match.group(1)`: for strings the content between the quotes, otherwise
the whole match), and the zero-based offset where the match began. -/
structure Token where
  name : TokName
  value : String
  position : Nat
  deriving DecidableEq, Repr

/-- Python's `str.split(sep)` for a one-character separator, on the
character list of the string: splitting an empty string gives `['']`,
and adjacent separators produce empty groups. -/
def splitOnChar (sep : Char) : List Char → List (List Char)
  | [] => [[]]
  | c :: cs =>
    if c = sep then [] :: splitOnChar sep cs
    else
      match splitOnChar sep cs with
      | [] => [[c]]
      | g :: gs => (c :: g) :: gs

/-- `Token.is_opening` from the source: `self.name.startswith('open')`,
i.e. `'open'` is a prefix of the kind name. -/
def Token.is_opening (t : Token) : Bool :=
  "open".data.isPrefixOf t.name.str.data

/-- `Token.is_closing` from the source: `self.name.startswith('close')`,
i.e. `'close'` is a prefix of the kind name. -/
def Token.is_closing (t : Token) : Bool :=
  "close".data.isPrefixOf t.name.str.data

/-- `Token.bracket_type` from the source: for opening or closing tokens,
`self.name.split('_')[1]` (the part of the kind name after the first
underscore); otherwise `None`. -/
def Token.bracket_type (t : Token) : Option String :=
  if t.is_closing || t.is_opening then
    some (String.mk ((splitOnChar '_' t.name.str.data).getD 1 []))
  else
    none

/-- Python's `\s` on ASCII input: space, tab, newline, carriage return,
vertical tab, form feed. -/
def isPySpace (c : Char) : Bool :=
  c = ' ' || c = '\t' || c = '\n' || c = '\r' || c = '\x0b' || c = '\x0c'

/-- Python's `\d` on ASCII input: a decimal digit. -/
def isPyDigit (c : Char) : Bool :=
  c.isDigit

/-- The rule `('string', '\"(.*)\"')` applied with `re.match` to the
remaining input `s`.  `.` matches every character except `'\n'` and `.*`
is greedy, so the match requires `s` to start with `'"'` and runs to the
LAST `'"'` found before the end of the current line; the captured text is
what stands between the two quotes, while the whole match also covers
both quote characters. -/
def stringMatch (s : List Char) : Option (List Char × Nat) :=
  match s with
  | '"' :: rest =>
    match (rest.takeWhile fun c => c ≠ '\n').reverse.dropWhile (fun c => c ≠ '"') with
    | '"' :: revContent => some (revContent.reverse, revContent.length + 2)
    | _ => none
  | _ => none

/-- The rule `('boolean', '(true|false)')`: matches the literal prefix
`true` or `false`. -/
def booleanMatch (s : List Char) : Option (List Char × Nat) :=
  if s.take 4 = ['t', 'r', 'u', 'e'] then some (['t', 'r', 'u', 'e'], 4)
  else if s.take 5 = ['f', 'a', 'l', 's', 'e'] then some (['f', 'a', 'l', 's', 'e'], 5)
  else none

/-- A single-character literal rule such as `('assignment', '(:)')` or
`('open_square', '(\[)')`. -/
def singleCharMatch (c : Char) (s : List Char) : Option (List Char × Nat) :=
  match s with
  | c2 :: _ => if c2 = c then some ([c], 1) else none
  | [] => none

/-- The rule `('number', '(\-?[\d\.]+)')`: an optional leading `-`
followed by a non-empty greedy run of digits and dots.  A `-` not
followed by a digit or dot does not match (the regex engine backtracks
over `\-?` and still needs `[\d\.]+` to match at least one character). -/
def numberMatch (s : List Char) : Option (List Char × Nat) :=
  match s with
  | '-' :: rest =>
    match rest.takeWhile (fun c => isPyDigit c || c = '.') with
    | [] => none
    | d :: ds => some ('-' :: d :: ds, (d :: ds).length + 1)
  | _ =>
    match s.takeWhile (fun c => isPyDigit c || c = '.') with
    | [] => none
    | d :: ds => some (d :: ds, (d :: ds).length)

/-- The discarded rule `(None, '(\s+)')`: a non-empty greedy run of
whitespace. -/
def wsMatch (s : List Char) : Option (List Char × Nat) :=
  match s.takeWhile isPySpace with
  | [] => none
  | c :: w => some (c :: w, (c :: w).length)

/-- The ordered rule table of `lex`, first match wins.  `none` as the
name marks the discarded-whitespace rule. -/
def rules : List (Option TokName × (List Char → Option (List Char × Nat))) :=
  [ (some .string, stringMatch),
    (some .boolean, booleanMatch),
    (some .assignment, singleCharMatch ':'),
    (some .open_square, singleCharMatch '['),
    (some .open_curly, singleCharMatch '\x7b'),
    (some .close_square, singleCharMatch ']'),
    (some .close_curly, singleCharMatch '\x7d'),
    (some .separator, singleCharMatch ','),
    (some .number, numberMatch),
    (none, wsMatch) ]

/-- Try the rules in table order against the remaining suffix; return the
first rule's name together with its captured text and total match
length. -/
def firstMatch :
    List (Option TokName × (List Char → Option (List Char × Nat))) →
    List Char → Option (Option TokName × List Char × Nat)
  | [], _ => none
  | (nm, m) :: rs, s =>
    match m s with
    | some (v, n) => some (nm, v, n)
    | none => firstMatch rs s

/-- The scanning loop of `lex`.  `fuel` bounds the number of loop
iterations; since every rule match consumes at least one character,
`fuel = s.length` always suffices (proved below as
`lexLoop_fuel_irrelevant`), so the fuel-exhaustion branch is dead code at
the entry point `lex`.  The result pairs the emitted tokens with `none`
on success or `some p` when no rule matched at position `p`. -/
def lexLoop : Nat → List Char → Nat → List Token × Option Nat
  | _, [], _ => ([], none)
  | 0, _ :: _, pos => ([], some pos)
  | fuel + 1, c :: cs, pos =>
    match firstMatch rules (c :: cs) with
    | none => ([], some pos)
    | some (nm, v, n) =>
      let r := lexLoop fuel ((c :: cs).drop n) (pos + n)
      match nm with
      | some name => (⟨name, String.mk v, pos⟩ :: r.1, r.2)
      | none => r

/-- `lex(src)` of src/jsonval.py, run to completion: the emitted tokens
together with `none` on success or `some p` when the generator raised
`ValueError: Unrecognized token starting at position p`. -/
def lex (src : String) : List Token × Option Nat :=
  lexLoop src.data.length src.data 0

/-- The scanning loop of `lex`, instrumented to record, besides the
emitted tokens and the outcome, the raw matched span of every rule match
in order — including the spans of the discarded whitespace rule.  The
raw span of a match of length `n` at the cursor is the next `n`
characters of the remaining input.  Its token/outcome component
coincides with `lexLoop` (`lexLoopR_sound` below). -/
def lexLoopR : Nat → List Char → Nat → List (List Char) × List Token × Option Nat
  | _, [], _ => ([], [], none)
  | 0, _ :: _, pos => ([], [], some pos)
  | fuel + 1, c :: cs, pos =>
    match firstMatch rules (c :: cs) with
    | none => ([], [], some pos)
    | some (nm, v, n) =>
      let r := lexLoopR fuel ((c :: cs).drop n) (pos + n)
      ((c :: cs).take n :: r.1,
        match nm with
        | some name => (⟨name, String.mk v, pos⟩ :: r.2.1, r.2.2)
        | none => r.2)

/-- Raw spans recorded for a run of `lex`, in match order. -/
def lexR (src : String) : List (List Char) × List Token × Option Nat :=
  lexLoopR src.data.length src.data 0

/-- The outcomes with which a run of the intended `validate(doc)` can
fail: the `ValueError` of `lex` propagating out of the token loop
(`lexError p` for message `Unrecognized token starting at position p`),
or a bracket-matching `ValueError` of the validator itself
(`noClosing t` for message `No closing token for <t>`, `noOpening t` for
message `No opening token for <t>`). -/
inductive ValidationError where
  | lexError (pos : Nat)
  | noClosing (t : Token)
  | noOpening (t : Token)
  deriving DecidableEq, Repr

/-- Modelled from the spec: the body of `validate` in src/jsonval.py is
empty (nothing but its docstring), so the stack algorithm of spec §4.2 is
embedded from the spec's words.  `stack` holds the pending opening
tokens, most recent first; `toks` is what remains of the token stream;
`lexErr` records whether the lexer generator, once exhausted of tokens,
raises (generator semantics: a lexing error surfaces only when the loop
asks for the token past the last one emitted).  On a closing token with
an empty stack, or whose bracket family differs from the top of the
stack, fail with `noOpening` at that closer; when the stream ends
cleanly with a non-empty stack, fail with `noClosing` at the
earliest-pushed (outermost) opener remaining, i.e. the last element of
`stack` — this end-of-stream check is split out as `endCheck`. -/
def endCheck (stack : List Token) : Option ValidationError :=
  match stack.getLast? with
  | some t => some (.noClosing t)
  | none => none

/-- Modelled from the spec: the token loop of the validator, see the
comment on `endCheck` above for the whole algorithm. -/
def validateRun : List Token → List Token → Option Nat → Option ValidationError
  | _, [], some p => some (.lexError p)
  | stack, [], none => endCheck stack
  | stack, t :: ts, lexErr =>
    if t.is_opening then
      validateRun (t :: stack) ts lexErr
    else if t.is_closing then
      match stack with
      | [] => some (.noOpening t)
      | top :: rest =>
        if top.bracket_type = t.bracket_type then validateRun rest ts lexErr
        else some (.noOpening t)
    else
      validateRun stack ts lexErr

/-- Modelled from the spec: `validate(doc)` as specified — lex the whole
document and run the bracket-matching stack algorithm over the token
stream, starting from an empty stack. -/
def validate (doc : String) : Option ValidationError :=
  validateRun [] (lex doc).1 (lex doc).2

/-- The `validate` function as it actually stands in src/jsonval.py: its
body is nothing but a docstring, and a Python function whose body is a
bare docstring returns `None` on every call and raises nothing.  It
never even invokes `lex`. -/
def validate_src (doc : String) : Option ValidationError :=
  let _ := doc
  none

/-- The stack left by running only the push/pop discipline of the
validator over a token list from a given initial stack: `none` when some
closing token finds an empty stack or a top of a different bracket
family (the validator would fail at that closer), otherwise `some` of
the final stack. -/
def stackAfter : List Token → List Token → Option (List Token)
  | stack, [] => some stack
  | stack, t :: ts =>
    if t.is_opening then
      stackAfter (t :: stack) ts
    else if t.is_closing then
      match stack with
      | [] => none
      | top :: rest =>
        if top.bracket_type = t.bracket_type then stackAfter rest ts
        else none
    else
      stackAfter stack ts

/-- Token sequences whose brackets are balanced and correctly nested:
the empty sequence, a non-bracket token followed by a balanced sequence,
or an opening token, a balanced inner sequence, its matching closing
token of the same bracket family, and a balanced remainder. -/
inductive Balanced : List Token → Prop where
  | nil : Balanced []
  | other (t : Token) (l : List Token) :
      t.is_opening = false → t.is_closing = false →
      Balanced l → Balanced (t :: l)
  | wrap (o c : Token) (inner after : List Token) :
      o.is_opening = true → c.is_closing = true →
      o.bracket_type = c.bracket_type →
      Balanced inner → Balanced after →
      Balanced (o :: (inner ++ c :: after))

/-! ### Basic lemmas about the lexer -/

@[simp]
theorem lexLoop_nil (fuel pos : Nat) : lexLoop fuel [] pos = ([], none) := by
  cases fuel <;> rfl

@[simp]
theorem lexLoop_zero_cons (c : Char) (cs : List Char) (pos : Nat) :
    lexLoop 0 (c :: cs) pos = ([], some pos) := rfl

theorem lexLoop_succ_cons (fuel : Nat) (c : Char) (cs : List Char) (pos : Nat) :
    lexLoop (fuel + 1) (c :: cs) pos =
      match firstMatch rules (c :: cs) with
      | none => ([], some pos)
      | some (nm, v, n) =>
        let r := lexLoop fuel ((c :: cs).drop n) (pos + n)
        match nm with
        | some name => (⟨name, String.mk v, pos⟩ :: r.1, r.2)
        | none => r := rfl

theorem stringMatch_pos {s : List Char} {v : List Char} {n : Nat}
    (h : stringMatch s = some (v, n)) : 1 ≤ n := by
  unfold stringMatch at h
  split at h
  · split at h
    · simp only [Option.some.injEq, Prod.mk.injEq] at h
      omega
    · exact absurd h (by simp)
  · exact absurd h (by simp)

theorem booleanMatch_pos {s : List Char} {v : List Char} {n : Nat}
    (h : booleanMatch s = some (v, n)) : 1 ≤ n := by
  unfold booleanMatch at h
  split at h
  · simp only [Option.some.injEq, Prod.mk.injEq] at h
    omega
  · split at h
    · simp only [Option.some.injEq, Prod.mk.injEq] at h
      omega
    · exact absurd h (by simp)

theorem singleCharMatch_pos {c : Char} {s : List Char} {v : List Char} {n : Nat}
    (h : singleCharMatch c s = some (v, n)) : 1 ≤ n := by
  unfold singleCharMatch at h
  split at h
  · split at h
    · simp only [Option.some.injEq, Prod.mk.injEq] at h
      omega
    · exact absurd h (by simp)
  · exact absurd h (by simp)

theorem numberMatch_pos {s : List Char} {v : List Char} {n : Nat}
    (h : numberMatch s = some (v, n)) : 1 ≤ n := by
  unfold numberMatch at h
  split at h
  · split at h
    · exact absurd h (by simp)
    · simp only [Option.some.injEq, Prod.mk.injEq, List.length_cons] at h
      omega
  · split at h
    · exact absurd h (by simp)
    · simp only [Option.some.injEq, Prod.mk.injEq, List.length_cons] at h
      omega

theorem wsMatch_pos {s : List Char} {v : List Char} {n : Nat}
    (h : wsMatch s = some (v, n)) : 1 ≤ n := by
  unfold wsMatch at h
  split at h
  · exact absurd h (by simp)
  · simp only [Option.some.injEq, Prod.mk.injEq, List.length_cons] at h
    omega

theorem firstMatch_pos_of (rs : List (Option TokName × (List Char → Option (List Char × Nat))))
    (hrs : ∀ p ∈ rs, ∀ s v n, p.2 s = some (v, n) → 1 ≤ n)
    {s : List Char} {nm : Option TokName} {v : List Char} {n : Nat}
    (h : firstMatch rs s = some (nm, v, n)) : 1 ≤ n := by
  induction rs with
  | nil => simp [firstMatch] at h
  | cons hd tl ih =>
    obtain ⟨nm0, m0⟩ := hd
    rw [firstMatch] at h
    cases hm : m0 s with
    | none =>
      rw [hm] at h
      exact ih (fun p hp => hrs p (List.mem_cons_of_mem _ hp)) h
    | some r =>
      obtain ⟨v0, n0⟩ := r
      rw [hm] at h
      simp only [Option.some.injEq, Prod.mk.injEq] at h
      obtain ⟨-, -, hn⟩ := h
      subst hn
      exact hrs ⟨nm0, m0⟩ (List.mem_cons_self _ _) s v0 n0 hm

/-- Every rule of the table matches only a non-empty prefix. -/
theorem rules_pos : ∀ p ∈ rules, ∀ s v n, p.2 s = some (v, n) → 1 ≤ n := by
  intro p hp
  simp only [rules, List.mem_cons, List.not_mem_nil, or_false] at hp
  rcases hp with h | h | h | h | h | h | h | h | h | h <;> subst h <;>
    intro s v n hm
  · exact stringMatch_pos hm
  · exact booleanMatch_pos hm
  · exact singleCharMatch_pos hm
  · exact singleCharMatch_pos hm
  · exact singleCharMatch_pos hm
  · exact singleCharMatch_pos hm
  · exact singleCharMatch_pos hm
  · exact singleCharMatch_pos hm
  · exact numberMatch_pos hm
  · exact wsMatch_pos hm

/-- A successful rule match at the head of the table consumes at least
one character, so each loop iteration strictly advances the cursor. -/
theorem firstMatch_pos {s : List Char} {nm : Option TokName} {v : List Char} {n : Nat}
    (h : firstMatch rules s = some (nm, v, n)) : 1 ≤ n :=
  firstMatch_pos_of rules rules_pos h

/-- The scanning loop is insensitive to the exact fuel as long as the
fuel covers the length of the remaining input: with `s.length` as fuel
the loop always runs to completion, which is the termination argument
for `lex`. -/
theorem lexLoop_fuel_irrelevant :
    ∀ fuel fuel2 : Nat, ∀ s : List Char, ∀ pos : Nat,
      s.length ≤ fuel → s.length ≤ fuel2 →
      lexLoop fuel s pos = lexLoop fuel2 s pos := by
  intro fuel
  induction fuel with
  | zero =>
    intro fuel2 s pos h1 _
    rw [List.length_eq_zero.mp (Nat.le_zero.mp h1)]
    simp
  | succ fuel ih =>
    intro fuel2 s pos h1 h2
    cases s with
    | nil => simp
    | cons c cs =>
      cases fuel2 with
      | zero =>
        exact absurd h2 (by simp)
      | succ fuel2 =>
        rw [lexLoop_succ_cons, lexLoop_succ_cons]
        cases hm : firstMatch rules (c :: cs) with
        | none => rfl
        | some r =>
          obtain ⟨nm, v, n⟩ := r
          have hn : 1 ≤ n := firstMatch_pos hm
          have hlen : ((c :: cs).drop n).length ≤ fuel := by
            rw [List.length_drop]
            simp only [List.length_cons] at h1 ⊢
            omega
          have hlen2 : ((c :: cs).drop n).length ≤ fuel2 := by
            rw [List.length_drop]
            simp only [List.length_cons] at h2 ⊢
            omega
          simp only [ih fuel2 ((c :: cs).drop n) (pos + n) hlen hlen2]

/-! ### Tabulating the token-kind predicates over the nine kinds -/

theorem is_opening_eq (t : Token) :
    t.is_opening = (t.name == .open_square || t.name == .open_curly) := by
  obtain ⟨name, v, p⟩ := t
  cases name <;> rfl

theorem is_closing_eq (t : Token) :
    t.is_closing = (t.name == .close_square || t.name == .close_curly) := by
  obtain ⟨name, v, p⟩ := t
  cases name <;> rfl

/-- No token kind name starts with both `open` and `close`. -/
theorem is_opening_false_of_closing {t : Token} (h : t.is_closing = true) :
    t.is_opening = false := by
  obtain ⟨name, v, p⟩ := t
  cases name <;> first | rfl | exact Bool.noConfusion h

/-! ### The validator loop versus the pure stack discipline -/

theorem validateRun_nil_some (stack : List Token) (p : Nat) :
    validateRun stack [] (some p) = some (.lexError p) := rfl

theorem validateRun_nil_none (stack : List Token) :
    validateRun stack [] none = endCheck stack := rfl

theorem validateRun_cons (stack : List Token) (t : Token) (ts : List Token)
    (lexErr : Option Nat) :
    validateRun stack (t :: ts) lexErr =
      if t.is_opening then
        validateRun (t :: stack) ts lexErr
      else if t.is_closing then
        match stack with
        | [] => some (.noOpening t)
        | top :: rest =>
          if top.bracket_type = t.bracket_type then validateRun rest ts lexErr
          else some (.noOpening t)
      else
        validateRun stack ts lexErr := by
  cases lexErr <;> rfl

theorem stackAfter_cons (stack : List Token) (t : Token) (ts : List Token) :
    stackAfter stack (t :: ts) =
      if t.is_opening then
        stackAfter (t :: stack) ts
      else if t.is_closing then
        match stack with
        | [] => none
        | top :: rest =>
          if top.bracket_type = t.bracket_type then stackAfter rest ts
          else none
      else
        stackAfter stack ts := rfl

/-- When the pure stack discipline crosses a token list without a closer
mismatch, the validator loop over that list reduces to the end-of-stream
check on the resulting stack. -/
theorem validateRun_of_stackAfter (toks : List Token) :
    ∀ stack st : List Token, stackAfter stack toks = some st →
      validateRun stack toks none = endCheck st := by
  induction toks with
  | nil =>
    intro stack st h
    simp only [stackAfter, Option.some.injEq] at h
    subst h
    rfl
  | cons t ts ih =>
    intro stack st h
    rw [stackAfter_cons] at h
    rw [validateRun_cons]
    by_cases ho : t.is_opening = true
    · simp only [ho, if_true] at h ⊢
      exact ih _ _ h
    · simp only [ho, if_false] at h ⊢
      by_cases hc : t.is_closing = true
      · simp only [hc, if_true] at h ⊢
        cases stack with
        | nil => exact absurd h (by simp)
        | cons top rest =>
          by_cases hb : top.bracket_type = t.bracket_type
          · simp only [hb, if_true] at h ⊢
            exact ih _ _ h
          · exact absurd h (by simp [hb])
      · simp only [hc, if_false] at h ⊢
        exact ih _ _ h

/-- Processing an appended token list runs the stack discipline in
sequence. -/
theorem stackAfter_append (l1 l2 : List Token) :
    ∀ stack : List Token,
      stackAfter stack (l1 ++ l2) =
        (stackAfter stack l1).bind (fun st => stackAfter st l2) := by
  induction l1 with
  | nil => intro stack; rfl
  | cons t ts ih =>
    intro stack
    rw [List.cons_append, stackAfter_cons, stackAfter_cons]
    by_cases ho : t.is_opening = true
    · simp only [ho, if_true]
      exact ih _
    · simp only [ho, if_false]
      by_cases hc : t.is_closing = true
      · simp only [hc, if_true]
        cases stack with
        | nil => rfl
        | cons top rest =>
          by_cases hb : top.bracket_type = t.bracket_type
          · simp only [hb, if_true]
            exact ih _
          · simp only [hb, if_false]
            rfl
      · simp only [hc, if_false]
        exact ih _

/-- A balanced token list leaves any stack unchanged under the stack
discipline, and in particular causes no closer mismatch. -/
theorem stackAfter_of_balanced {l : List Token} (hl : Balanced l) :
    ∀ stack : List Token, stackAfter stack l = some stack := by
  induction hl with
  | nil => intro stack; rfl
  | other t l ho hc _ ih =>
    intro stack
    rw [stackAfter_cons, ho, hc]
    simp only [Bool.false_eq_true, if_false]
    exact ih stack
  | wrap o c inner after ho hc hb _ _ ih1 ih2 =>
    intro stack
    rw [stackAfter_cons, ho]
    simp only [if_true]
    rw [stackAfter_append, ih1 (o :: stack)]
    simp only [Option.some_bind]
    rw [stackAfter_cons, is_opening_false_of_closing hc, hc]
    simp only [Bool.false_eq_true, if_false, if_true]
    rw [hb]
    simp only [if_true]
    exact ih2 stack

/-- If the stack discipline crosses a prefix without incident and then
meets a closing token that finds an empty stack or a top of the other
bracket family, the validator loop fails at exactly that closer with
`noOpening`, whatever tokens and lexing outcome follow. -/
theorem validateRun_noOpening (t : Token) (l2 : List Token) (e : Option Nat)
    (ht : t.is_closing = true) :
    ∀ l1 stack st : List Token, stackAfter stack l1 = some st →
      st.head?.all (fun top => top.bracket_type ≠ t.bracket_type) = true →
      validateRun stack (l1 ++ t :: l2) e = some (.noOpening t) := by
  intro l1
  induction l1 with
  | nil =>
    intro stack st h hmis
    simp only [stackAfter, Option.some.injEq] at h
    subst h
    rw [List.nil_append, validateRun_cons, is_opening_false_of_closing ht, ht]
    simp only [Bool.false_eq_true, if_false, if_true]
    cases stack with
    | nil => rfl
    | cons top rest =>
      have hne : ¬ top.bracket_type = t.bracket_type :=
        of_decide_eq_true hmis
      simp only [hne, if_false]
  | cons a l1 ih =>
    intro stack st h hmis
    rw [stackAfter_cons] at h
    rw [List.cons_append, validateRun_cons]
    by_cases ho : a.is_opening = true
    · simp only [ho, if_true] at h ⊢
      exact ih _ _ h hmis
    · simp only [ho, if_false] at h ⊢
      by_cases hc : a.is_closing = true
      · simp only [hc, if_true] at h ⊢
        cases stack with
        | nil => exact absurd h (by simp)
        | cons top rest =>
          by_cases hb : top.bracket_type = a.bracket_type
          · simp only [hb, if_true] at h ⊢
            exact ih _ _ h hmis
          · exact absurd h (by simp [hb])
      · simp only [hc, if_false] at h ⊢
        exact ih _ _ h hmis

/-! ### Span accounting for the lexer -/

@[simp]
theorem lexLoopR_nil (fuel pos : Nat) : lexLoopR fuel [] pos = ([], [], none) := by
  cases fuel <;> rfl

/-- The instrumented loop computes exactly the tokens and outcome of the
plain loop. -/
theorem lexLoopR_sound :
    ∀ fuel : Nat, ∀ s : List Char, ∀ pos : Nat,
      (lexLoopR fuel s pos).2 = lexLoop fuel s pos := by
  intro fuel
  induction fuel with
  | zero =>
    intro s pos
    cases s <;> rfl
  | succ fuel ih =>
    intro s pos
    cases s with
    | nil => rfl
    | cons c cs =>
      rw [lexLoop_succ_cons]
      show (match firstMatch rules (c :: cs) with
            | none => (([], [], some pos) : List (List Char) × List Token × Option Nat)
            | some (nm, v, n) =>
              let r := lexLoopR fuel ((c :: cs).drop n) (pos + n)
              ((c :: cs).take n :: r.1,
                match nm with
                | some name => (⟨name, String.mk v, pos⟩ :: r.2.1, r.2.2)
                | none => r.2)).2 = _
      cases hm : firstMatch rules (c :: cs) with
      | none => rfl
      | some r =>
        obtain ⟨nm, v, n⟩ := r
        cases nm with
        | none => exact ih _ _
        | some name =>
          show (⟨name, String.mk v, pos⟩ :: (lexLoopR fuel _ _).2.1,
                (lexLoopR fuel _ _).2.2) = _
          rw [ih ((c :: cs).drop n) (pos + n)]

/-- On an error-free run, the recorded raw spans concatenate, in order
and without gaps or overlaps, to exactly the input: every character of
the input is consumed by exactly one rule match, emitted or
discarded. -/
theorem lexLoopR_flatten :
    ∀ fuel : Nat, ∀ s : List Char, ∀ pos : Nat,
      (lexLoopR fuel s pos).2.2 = none →
      (lexLoopR fuel s pos).1.flatten = s := by
  intro fuel
  induction fuel with
  | zero =>
    intro s pos h
    cases s with
    | nil => rfl
    | cons c cs => exact absurd h (by simp [lexLoopR])
  | succ fuel ih =>
    intro s pos h
    cases s with
    | nil => rfl
    | cons c cs =>
      rw [lexLoopR] at h ⊢
      cases hm : firstMatch rules (c :: cs) with
      | none => rw [hm] at h; exact absurd h (by simp)
      | some r =>
        obtain ⟨nm, v, n⟩ := r
        rw [hm] at h
        have herr : (lexLoopR fuel ((c :: cs).drop n) (pos + n)).2.2 = none := by
          cases nm with
          | none => exact h
          | some name => exact h
        show ((c :: cs).take n :: (lexLoopR fuel ((c :: cs).drop n) (pos + n)).1).flatten
              = c :: cs
        rw [List.flatten_cons, ih ((c :: cs).drop n) (pos + n) herr]
        exact List.take_append_drop n (c :: cs)

/-- Every token emitted while scanning from cursor `pos` carries a
position at least `pos`. -/
theorem lexLoop_pos_le :
    ∀ fuel : Nat, ∀ s : List Char, ∀ pos : Nat, ∀ t : Token,
      t ∈ (lexLoop fuel s pos).1 → pos ≤ t.position := by
  intro fuel
  induction fuel with
  | zero =>
    intro s pos t ht
    cases s with
    | nil => simp at ht
    | cons c cs => simp at ht
  | succ fuel ih =>
    intro s pos t ht
    cases s with
    | nil => simp at ht
    | cons c cs =>
      rw [lexLoop_succ_cons] at ht
      cases hm : firstMatch rules (c :: cs) with
      | none => rw [hm] at ht; simp at ht
      | some r =>
        obtain ⟨nm, v, n⟩ := r
        rw [hm] at ht
        cases nm with
        | none =>
          have := ih ((c :: cs).drop n) (pos + n) t ht
          omega
        | some name =>
          simp only [List.mem_cons] at ht
          cases ht with
          | inl h => subst h; exact Nat.le_refl pos
          | inr h =>
            have := ih ((c :: cs).drop n) (pos + n) t h
            omega

/-- Emitted token positions are monotonically non-decreasing along the
stream. -/
theorem lexLoop_chain :
    ∀ fuel : Nat, ∀ s : List Char, ∀ pos : Nat,
      List.Chain' (fun a b => a.position ≤ b.position) (lexLoop fuel s pos).1 := by
  intro fuel
  induction fuel with
  | zero =>
    intro s pos
    cases s <;> simp
  | succ fuel ih =>
    intro s pos
    cases s with
    | nil => simp
    | cons c cs =>
      rw [lexLoop_succ_cons]
      cases hm : firstMatch rules (c :: cs) with
      | none => simp
      | some r =>
        obtain ⟨nm, v, n⟩ := r
        cases nm with
        | none => exact ih _ _
        | some name =>
          rw [List.chain'_cons']
          refine ⟨fun b hb => ?_, ih _ _⟩
          have hmem : b ∈ (lexLoop fuel ((c :: cs).drop n) (pos + n)).1 :=
            List.mem_of_mem_head? hb
          have := lexLoop_pos_le fuel ((c :: cs).drop n) (pos + n) b hmem
          show pos ≤ b.position
          omega

/-- The string rule's greedy matching, characterised: at an opening
quote, the match runs to the last `"` before the next newline, and the
captured text is everything in between, however many quotes it
contains. -/
theorem stringMatch_last_quote (u v : List Char)
    (h1 : '\n' ∉ u)
    (h2 : '"' ∉ v.takeWhile (fun c => c ≠ '\n')) :
    stringMatch ('"' :: (u ++ '"' :: v)) = some (u, u.length + 2) := by
  have hu : ∀ c ∈ u, (fun c => (c ≠ '\n' : Bool)) c = true := by
    intro c hc
    simp only [decide_eq_true_eq]
    exact fun hEq => h1 (hEq ▸ hc)
  have hw : ∀ c ∈ (v.takeWhile (fun c => (c ≠ '\n' : Bool))).reverse,
      (fun c => (c ≠ '"' : Bool)) c = true := by
    intro c hc
    simp only [decide_eq_true_eq]
    rw [List.mem_reverse] at hc
    exact fun hEq => h2 (hEq ▸ hc)
  simp only [stringMatch]
  rw [List.takeWhile_append_of_pos hu]
  rw [List.takeWhile_cons_of_pos (by decide)]
  rw [List.reverse_append, List.reverse_cons, List.append_assoc,
    List.singleton_append]
  rw [List.dropWhile_append_of_pos hw]
  rw [List.dropWhile_cons_of_neg (by decide)]
  show some (u.reverse.reverse, u.reverse.length + 2) = some (u, u.length + 2)
  rw [List.reverse_reverse, List.length_reverse]

/-! ### The claims -/

/-- C1: for every document in which an opening bracket is never closed —
lexing succeeds and the stack discipline runs through the whole token
stream without closer mismatch, ending in a non-empty stack `st` —
`validate` fails with the `No closing token for <t>` error, where `t` is
the outermost (earliest-pushed) unmatched opening token: the last
element of the final stack, reported with its kind, text and
position. -/
theorem validate_unmatched_opener (doc : String) (st : List Token) (t : Token)
    (h0 : (lex doc).2 = none)
    (h1 : stackAfter [] (lex doc).1 = some st)
    (h2 : st.getLast? = some t) :
    validate doc = some (.noClosing t) := by
  unfold validate
  rw [h0, validateRun_of_stackAfter _ _ _ h1]
  unfold endCheck
  rw [h2]

/-- Witness for C1: the documents `{` and `[` each lex to a single
unmatched opener, and `validate` reports exactly that opening token with
its kind, text and position. -/
theorem validate_unmatched_opener_witness :
    validate ("\x7b") = some (.noClosing ⟨.open_curly, "\x7b", 0⟩) ∧
    validate ("[") = some (.noClosing ⟨.open_square, "[", 0⟩) :=
  ⟨validate_unmatched_opener ("\x7b")
      [⟨.open_curly, "\x7b", 0⟩] ⟨.open_curly, "\x7b", 0⟩
      (by decide) (by decide) (by decide),
   validate_unmatched_opener ("[")
      [⟨.open_square, "[", 0⟩] ⟨.open_square, "[", 0⟩
      (by decide) (by decide) (by decide)⟩

/-- C2: for every document whose token stream contains a closing token
`t` that, after the stack discipline crosses the tokens before it
without incident, finds either an empty stack or a top opener of the
other bracket family, `validate` fails at exactly that closer with the
`No opening token for <t>` error — whatever tokens or lexing failure
come after it. -/
theorem validate_orphan_closer (doc : String) (l1 l2 st : List Token) (t : Token)
    (h0 : (lex doc).1 = l1 ++ t :: l2)
    (h1 : stackAfter [] l1 = some st)
    (h2 : t.is_closing = true)
    (h3 : st.head?.all (fun top => top.bracket_type ≠ t.bracket_type) = true) :
    validate doc = some (.noOpening t) := by
  unfold validate
  rw [h0]
  exact validateRun_noOpening t l2 (lex doc).2 h2 l1 [] st h1 h3

/-- Witness for C2: the documents `]` (closer on an empty stack), `[}`
(family mismatch), and `["numbers":{1,2,3]}` — the latter failing at the
`close_square` token at position 17, as the open `{` at position 11 is
on top of the stack and the families differ. -/
theorem validate_orphan_closer_witness :
    validate ("]") = some (.noOpening ⟨.close_square, "]", 0⟩) ∧
    validate ("[\x7d") = some (.noOpening ⟨.close_curly, "\x7d", 1⟩) ∧
    validate ("[\"numbers\":\x7b1,2,3]\x7d") =
      some (.noOpening ⟨.close_square, "]", 17⟩) :=
  ⟨validate_orphan_closer ("]") [] [] [] ⟨.close_square, "]", 0⟩
      (by decide) (by decide) (by decide) (by decide),
   validate_orphan_closer ("[\x7d")
      [⟨.open_square, "[", 0⟩] [] [⟨.open_square, "[", 0⟩] ⟨.close_curly, "\x7d", 1⟩
      (by decide) (by decide) (by decide) (by decide),
   validate_orphan_closer ("[\"numbers\":\x7b1,2,3]\x7d")
      [⟨.open_square, "[", 0⟩, ⟨.string, "numbers", 1⟩, ⟨.assignment, ":", 10⟩,
       ⟨.open_curly, "\x7b", 11⟩, ⟨.number, "1", 12⟩, ⟨.separator, ",", 13⟩,
       ⟨.number, "2", 14⟩, ⟨.separator, ",", 15⟩, ⟨.number, "3", 16⟩]
      [⟨.close_curly, "\x7d", 18⟩]
      [⟨.open_curly, "\x7b", 11⟩, ⟨.open_square, "[", 0⟩]
      ⟨.close_square, "]", 17⟩
      (by decide) (by decide) (by decide) (by decide)⟩

/-- C3: the `validate` of src/jsonval.py as written has no body beyond
its docstring, so it returns `None` for every input document and raises
nothing — every document, including the unbalanced `{`, `]` and `[}`, is
accepted without error (contrary to the doctests in its own
docstring, which the spec-modelled `validate` above captures). -/
theorem validate_src_returns_none :
    (∀ doc : String, validate_src doc = none) ∧
    validate_src ("\x7b") = none ∧
    validate_src ("]") = none ∧
    validate_src ("[\x7d") = none :=
  ⟨fun _ => rfl, rfl, rfl, rfl⟩

/-- C4: for every document that lexes cleanly into a balanced,
correctly nested token stream, the spec-modelled validation succeeds:
it returns nothing and raises no error. -/
theorem validate_balanced (doc : String)
    (h0 : (lex doc).2 = none)
    (h1 : Balanced (lex doc).1) :
    validate doc = none := by
  unfold validate
  rw [h0, validateRun_of_stackAfter _ _ _ (stackAfter_of_balanced h1 [])]
  rfl

/-- Witness for C4: the six example documents of the claim all validate
successfully. -/
theorem validate_balanced_witness :
    validate ("") = none ∧
    validate ("\x7b\x7d") = none ∧
    validate ("[]") = none ∧
    validate ("[\x7b\x7d]") = none ∧
    validate ("[1,2,3]") = none ∧
    validate ("\x7b\"numbers\":[1,2,3]\x7d") = none := by
  have b2 : Balanced [⟨.open_curly, "\x7b", 0⟩, ⟨.close_curly, "\x7d", 1⟩] :=
    Balanced.wrap ⟨.open_curly, "\x7b", 0⟩ ⟨.close_curly, "\x7d", 1⟩ [] []
      (by decide) (by decide) (by decide) Balanced.nil Balanced.nil
  have b3 : Balanced [⟨.open_square, "[", 0⟩, ⟨.close_square, "]", 1⟩] :=
    Balanced.wrap ⟨.open_square, "[", 0⟩ ⟨.close_square, "]", 1⟩ [] []
      (by decide) (by decide) (by decide) Balanced.nil Balanced.nil
  have b4 : Balanced [⟨.open_square, "[", 0⟩, ⟨.open_curly, "\x7b", 1⟩,
      ⟨.close_curly, "\x7d", 2⟩, ⟨.close_square, "]", 3⟩] :=
    Balanced.wrap ⟨.open_square, "[", 0⟩ ⟨.close_square, "]", 3⟩
      [⟨.open_curly, "\x7b", 1⟩, ⟨.close_curly, "\x7d", 2⟩] []
      (by decide) (by decide) (by decide)
      (Balanced.wrap ⟨.open_curly, "\x7b", 1⟩ ⟨.close_curly, "\x7d", 2⟩ [] []
        (by decide) (by decide) (by decide) Balanced.nil Balanced.nil)
      Balanced.nil
  have i5 : Balanced [⟨.number, "1", 1⟩, ⟨.separator, ",", 2⟩, ⟨.number, "2", 3⟩,
      ⟨.separator, ",", 4⟩, ⟨.number, "3", 5⟩] :=
    Balanced.other ⟨.number, "1", 1⟩ _ (by decide) (by decide)
      (Balanced.other ⟨.separator, ",", 2⟩ _ (by decide) (by decide)
        (Balanced.other ⟨.number, "2", 3⟩ _ (by decide) (by decide)
          (Balanced.other ⟨.separator, ",", 4⟩ _ (by decide) (by decide)
            (Balanced.other ⟨.number, "3", 5⟩ _ (by decide) (by decide)
              Balanced.nil))))
  have b5 : Balanced [⟨.open_square, "[", 0⟩, ⟨.number, "1", 1⟩,
      ⟨.separator, ",", 2⟩, ⟨.number, "2", 3⟩, ⟨.separator, ",", 4⟩,
      ⟨.number, "3", 5⟩, ⟨.close_square, "]", 6⟩] :=
    Balanced.wrap ⟨.open_square, "[", 0⟩ ⟨.close_square, "]", 6⟩
      [⟨.number, "1", 1⟩, ⟨.separator, ",", 2⟩, ⟨.number, "2", 3⟩,
       ⟨.separator, ",", 4⟩, ⟨.number, "3", 5⟩] []
      (by decide) (by decide) (by decide) i5 Balanced.nil
  have i6 : Balanced [⟨.number, "1", 12⟩, ⟨.separator, ",", 13⟩,
      ⟨.number, "2", 14⟩, ⟨.separator, ",", 15⟩, ⟨.number, "3", 16⟩] :=
    Balanced.other ⟨.number, "1", 12⟩ _ (by decide) (by decide)
      (Balanced.other ⟨.separator, ",", 13⟩ _ (by decide) (by decide)
        (Balanced.other ⟨.number, "2", 14⟩ _ (by decide) (by decide)
          (Balanced.other ⟨.separator, ",", 15⟩ _ (by decide) (by decide)
            (Balanced.other ⟨.number, "3", 16⟩ _ (by decide) (by decide)
              Balanced.nil))))
  have b6 : Balanced [⟨.open_curly, "\x7b", 0⟩, ⟨.string, "numbers", 1⟩,
      ⟨.assignment, ":", 10⟩, ⟨.open_square, "[", 11⟩, ⟨.number, "1", 12⟩,
      ⟨.separator, ",", 13⟩, ⟨.number, "2", 14⟩, ⟨.separator, ",", 15⟩,
      ⟨.number, "3", 16⟩, ⟨.close_square, "]", 17⟩, ⟨.close_curly, "\x7d", 18⟩] :=
    Balanced.wrap ⟨.open_curly, "\x7b", 0⟩ ⟨.close_curly, "\x7d", 18⟩
      [⟨.string, "numbers", 1⟩, ⟨.assignment, ":", 10⟩,
       ⟨.open_square, "[", 11⟩, ⟨.number, "1", 12⟩, ⟨.separator, ",", 13⟩,
       ⟨.number, "2", 14⟩, ⟨.separator, ",", 15⟩, ⟨.number, "3", 16⟩,
       ⟨.close_square, "]", 17⟩] []
      (by decide) (by decide) (by decide)
      (Balanced.other ⟨.string, "numbers", 1⟩ _ (by decide) (by decide)
        (Balanced.other ⟨.assignment, ":", 10⟩ _ (by decide) (by decide)
          (Balanced.wrap ⟨.open_square, "[", 11⟩ ⟨.close_square, "]", 17⟩
            [⟨.number, "1", 12⟩, ⟨.separator, ",", 13⟩, ⟨.number, "2", 14⟩,
             ⟨.separator, ",", 15⟩, ⟨.number, "3", 16⟩] []
            (by decide) (by decide) (by decide) i6 Balanced.nil)))
      Balanced.nil
  exact ⟨validate_balanced ("") (by decide) Balanced.nil,
    validate_balanced ("\x7b\x7d") (by decide) b2,
    validate_balanced ("[]") (by decide) b3,
    validate_balanced ("[\x7b\x7d]") (by decide) b4,
    validate_balanced ("[1,2,3]") (by decide) b5,
    validate_balanced ("\x7b\"numbers\":[1,2,3]\x7d") (by decide) b6⟩

/-- C5: `lex('[1, \"2\"]')` yields exactly five tokens in order —
open_square at 0, number `1` at 1, separator at 2, string `2` at 4 (text
stripped of its quotes, position at the opening quote), close_square at
7 — and the whitespace at position 3 produces no token. -/
theorem lex_array_example :
    lex ("[1, \"2\"]") =
      ([⟨.open_square, "[", 0⟩, ⟨.number, "1", 1⟩, ⟨.separator, ",", 2⟩,
        ⟨.string, "2", 4⟩, ⟨.close_square, "]", 7⟩], none) := by
  decide

/-- C6: whenever no lexical rule matches the remaining input at the
current scan position, the loop stops immediately — emitting nothing
further and skipping nothing — and reports exactly that position (the
`Unrecognized token starting at position p` ValueError); in particular
`lex('[1, --2]')` fails at position 4 after emitting the three tokens
before the whitespace. -/
theorem lex_unrecognized_token (fuel : Nat) (s : List Char) (pos : Nat)
    (h1 : s ≠ []) (h2 : firstMatch rules s = none) :
    lexLoop fuel s pos = ([], some pos) ∧
    lex ("[1, --2]") =
      ([⟨.open_square, "[", 0⟩, ⟨.number, "1", 1⟩, ⟨.separator, ",", 2⟩],
       some 4) := by
  constructor
  · cases s with
    | nil => exact absurd rfl h1
    | cons c cs =>
      cases fuel with
      | zero => rfl
      | succ fuel => rw [lexLoop_succ_cons, h2]
  · decide

/-- Witness for C6: at position 4 of `[1, --2]` the remaining input is
`--2]`, which no rule matches, so the loop fails there. -/
theorem lex_unrecognized_token_witness :
    lexLoop 4 ("--2]").data 4 = ([], some 4) ∧
    lex ("[1, --2]") =
      ([⟨.open_square, "[", 0⟩, ⟨.number, "1", 1⟩, ⟨.separator, ",", 2⟩],
       some 4) :=
  lex_unrecognized_token 4 ("--2]").data 4 (by decide) (by decide)

/-- C7: on every input that lexes without error, the emitted token
positions are monotonically non-decreasing, and the raw matched spans of
all rule matches — the discarded whitespace spans included — concatenate
in order to exactly the source, with no gaps and no overlaps; the
instrumented scan recording those spans computes the very tokens and
outcome of `lex`. -/
theorem lex_span_coverage (src : String) (h : (lex src).2 = none) :
    List.Chain' (fun a b => a.position ≤ b.position) (lex src).1 ∧
    (lexR src).1.flatten = src.data ∧
    (lexR src).2 = lex src := by
  refine ⟨lexLoop_chain _ _ _, ?_, lexLoopR_sound _ _ _⟩
  show (lexLoopR src.data.length src.data 0).1.flatten = src.data
  apply lexLoopR_flatten
  rw [lexLoopR_sound]
  exact h

/-- Witness for C7: span coverage on the document `[1, "2"]`. -/
theorem lex_span_coverage_witness :
    List.Chain' (fun a b => a.position ≤ b.position) (lex ("[1, \"2\"]")).1 ∧
    (lexR ("[1, \"2\"]")).1.flatten = ("[1, \"2\"]").data ∧
    (lexR ("[1, \"2\"]")).2 = lex ("[1, \"2\"]") :=
  lex_span_coverage ("[1, \"2\"]") (by decide)

/-- C8 counterexample: `1--2` does NOT lex as one number token with text
`1--2` — the number rule matches only the `1`, and lexing then fails at
position 1, where `--2` matches no rule (the regex `\-?[\d\.]+` allows
at most one `-`, in leading position only). -/
theorem number_rule_counterexample :
    lex ("1--2") ≠ ([⟨.number, "1--2", 0⟩], none) ∧
    lex ("1--2") = ([⟨.number, "1", 0⟩], some 1) ∧
    numberMatch ("1--2").data = some (("1").data, 1) := by
  decide

/-- C8 amended: the number rule permits multiple embedded `.` characters
within a single match (`1..2` is one number token), and a single `-`
only in leading position (`-1.61`); `1--2` instead lexes its `1` as a
number and then fails at position 1. -/
theorem number_rule_amended :
    numberMatch ("1..2").data = some (("1..2").data, 4) ∧
    lex ("1..2") = ([⟨.number, "1..2", 0⟩], none) ∧
    lex ("-1.61") = ([⟨.number, "-1.61", 0⟩], none) ∧
    lex ("1--2") = ([⟨.number, "1", 0⟩], some 1) := by
  decide

/-- C9 counterexample: the string rule is greedy only across the
remainder of the current line, not the whole remaining text — in
`"a"\n"b"` the remaining text at position 0 contains three later
quotes, yet the match stops at position 2 (Python's `.` does not match
a newline), so the document lexes as two separate string tokens rather
than one spanning to the last quote. -/
theorem string_rule_counterexample :
    lex ("\"a\"\n\"b\"") = ([⟨.string, "a", 0⟩, ⟨.string, "b", 4⟩], none) ∧
    lex ("\"a\"\n\"b\"") ≠ ([⟨.string, "a\"\n\"b", 0⟩], none) := by
  decide

/-- C9 amended: at an opening quote the string rule matches greedily to
the LAST `\"` occurring before the next newline: for any split of the
rest of the line as `u ++ '\"' :: v` with no newline in `u` and no
further quote on `v`'s part of the line, the captured text is all of `u`
(however many quotes it contains) and the match spans `u.length + 2`
characters; so `'\"a\" \"b\"'`, all on one line, lexes as the single
string token `a\" \"b`. -/
theorem string_rule_amended (u v : List Char)
    (h1 : '\n' ∉ u)
    (h2 : '"' ∉ v.takeWhile (fun c => c ≠ '\n')) :
    stringMatch ('"' :: (u ++ '"' :: v)) = some (u, u.length + 2) ∧
    lex ("\"a\" \"b\"") = ([⟨.string, "a\" \"b", 0⟩], none) :=
  ⟨stringMatch_last_quote u v h1 h2, by decide⟩

/-- Witness for C9 amended: the content of `\"a\" \"b\"` between the
outermost quotes is captured whole. -/
theorem string_rule_amended_witness :
    stringMatch ('"' :: (("a\" \"b").data ++ '"' :: [])) =
      some (("a\" \"b").data, ("a\" \"b").data.length + 2) ∧
    lex ("\"a\" \"b\"") = ([⟨.string, "a\" \"b", 0⟩], none) :=
  string_rule_amended (("a\" \"b").data) [] (by decide) (by decide)

/-- C10: `lex` terminates on every finite input — since every rule match
consumes at least one character, a fuel of `s.length` loop iterations
always completes the scan, and any larger fuel computes the same
result. -/
theorem lex_fuel_terminates (fuel : Nat) (s : List Char) (pos : Nat)
    (h : s.length ≤ fuel) :
    lexLoop fuel s pos = lexLoop s.length s pos :=
  lexLoop_fuel_irrelevant fuel s.length s pos h (Nat.le_refl _)

/-- Witness for C10: scanning `[1, "2"]` with ample fuel equals the run
with fuel exactly the input length. -/
theorem lex_fuel_terminates_witness :
    lexLoop 100 ("[1, \"2\"]").data 0 =
      lexLoop ("[1, \"2\"]").data.length ("[1, \"2\"]").data 0 :=
  lex_fuel_terminates 100 ("[1, \"2\"]").data 0 (by decide)

end JsonVal
